import Mathlib

/- Shallow embedding of pikepdf's PageList (src/qpdf/qpdf_pagelist.h): a
mutable, sequence-like view over the page collection of a qpdf document.
Machine integers (size_t, ssize_t) are modelled as Nat/Int; every index that
is actually used on an executed path stays inside [0, pageCount], far below
2^64, so size_t wraparound is never observable and no explicit modular
reduction is needed.  C++ exceptions are modelled by an explicit Except
result whose error case carries the state at throw time, because mutations
performed before a throw persist in the underlying QPDF object. -/

/-- A QPDFObjectHandle as used by the page list: a reference to one indirect
object.  Identity is the pair (objId, owner): qpdf identifies a page by its
indirect object id within its owning QPDF.  `isPage` is the result of
isPageObject(); `content` abstracts the underlying object value, which
makeIndirectObject copies unchanged into a fresh indirect object. -/
structure QPDFObjectHandle where
  objId : Nat
  owner : Nat
  isPage : Bool
  content : Nat
deriving DecidableEq, Repr

/-- The mutable state of one qpdf document: its ordered page collection
(getAllPages), a counter minting fresh indirect-object ids
(makeIndirectObject), and the multiset of owners of foreign graphs on which a
lifetime hold (inc_ref of the owning pikepdf object) has been placed by
insertPage. -/
structure QPDF where
  graphId : Nat
  pages : List QPDFObjectHandle
  nextObjId : Nat
  holds : List Nat
deriving DecidableEq, Repr

/-- Errors surfaced to Python: py::index_error, py::type_error and
py::value_error, each carrying its message string. -/
inductive PdfError where
  | indexError (msg : String)
  | typeError (msg : String)
  | valueError (msg : String)
deriving DecidableEq, Repr

/-- A Python object as seen through py::handle: either a pikepdf Object
wrapping a QPDFObjectHandle (so obj.cast succeeds) or any other
Python object (the cast throws py::cast_error). -/
inductive PyObject where
  | pdfObj (h : QPDFObjectHandle)
  | nonPdf
deriving DecidableEq, Repr

deriving instance DecidableEq for Except

/-- Result of a mutating PageList operation: either the updated QPDF state, or
the error thrown together with the state at throw time (mutations performed
before the throw persist). -/
abbrev PdfResult := Except (PdfError × QPDF) QPDF

/-- assert_pyobject_is_page: try to cast the handle to QPDFObjectHandle
(py::cast_error becomes a type_error), then require isPageObject(). -/
def assert_pyobject_is_page (obj : PyObject) : Except PdfError Unit :=
  match obj with
  | .nonPdf => .error (.typeError "only pikepdf pages can be assigned to a page list")
  | .pdfObj h =>
    if !h.isPage then .error (.typeError "only pages can be assigned to a page list")
    else .ok ()

/-- A Python slice object: optional start, stop and step. -/
structure PySlice where
  start : Option Int
  stop : Option Int
  step : Option Int
deriving DecidableEq, Repr

/-- Modelled from the spec (section 4.1): normalization of one explicit slice
bound by the host runtime — a negative value has the length added, and the
result is clamped into range, with the out-of-range substitutes chosen by the
sign of the step (standard Python sequence slicing). -/
def sliceAdjust (n step v : Int) : Int :=
  let v := if v < 0 then v + n else v
  if v < 0 then (if step < 0 then -1 else 0)
  else if n ≤ v then (if step < 0 then n - 1 else n)
  else v

/-- Modelled from the spec (section 4.1): the resolved start of a slice — the
default (by step sign) when absent, the adjusted value otherwise. -/
def sliceStart (sl : PySlice) (n step : Int) : Int :=
  match sl.start with
  | none => if step < 0 then n - 1 else 0
  | some v => sliceAdjust n step v

/-- Modelled from the spec (section 4.1): the resolved stop of a slice — the
default (by step sign) when absent, the adjusted value otherwise. -/
def sliceStop (sl : PySlice) (n step : Int) : Int :=
  match sl.stop with
  | none => if step < 0 then -1 else n
  | some v => sliceAdjust n step v

/-- Modelled from the spec (section 4.1): the exact number of indices of a
resolved slice, per the standard sequence-slicing formula. -/
def sliceLen (start stop step : Int) : Nat :=
  if step < 0 then
    if stop < start then ((start - stop - 1) / (-step) + 1).toNat else 0
  else
    if start < stop then ((stop - start - 1) / step + 1).toNat else 0

/-- Modelled from the spec (section 4.1): slice resolution of the host
runtime (py::slice::compute / PySlice_GetIndicesEx), an external collaborator
of the core.  A zero step is rejected with a value error; otherwise the
resolved (start, stop, step, slicelength) is returned. -/
def sliceCompute (sl : PySlice) (length : Nat) : Except PdfError (Int × Int × Int × Nat) :=
  let n : Int := (length : Int)
  let step : Int := sl.step.getD 1
  if step = 0 then
    .error (.valueError "slice step cannot be zero")
  else
    let start := sliceStart sl n step
    let stop := sliceStop sl n step
    .ok (start, stop, step, sliceLen start stop step)

/-- Object identity as qpdf's page bookkeeping uses it: same indirect object
id within the same owning QPDF. -/
def sameObject (a b : QPDFObjectHandle) : Bool :=
  a.objId == b.objId && a.owner == b.owner

namespace PageList

/-- PageList::count — the live size of qpdf.getAllPages(). -/
def count (s : QPDF) : Nat :=
  s.pages.length

/-- PageList::getPage — signed-index read.  A negative index is normalized by
adding the page count; a still-negative or too-large index throws
py::index_error.  The const method performs no mutation, which the result
type makes explicit (no state is returned). -/
def getPage (s : QPDF) (index : Int) : Except PdfError QPDFObjectHandle :=
  let pages := s.pages
  let i := if index < 0 then index + (pages.length : Int) else index
  if i < 0 then .error (.indexError "Accessing nonexistent PDF page number")
  else if h : i.toNat < pages.length then .ok (pages.get ⟨i.toNat, h⟩)
  else .error (.indexError "Accessing nonexistent PDF page number")

/-- QPDF::addPageAt — insert `page` immediately before (before = true) or
after (before = false) the position of `refpage`, located by object identity;
`refpage` is always a handle just read from the page collection, so the
not-found fallback is unreachable on every executed path. -/
def addPageAt (pages : List QPDFObjectHandle) (page : QPDFObjectHandle)
    (before : Bool) (refpage : QPDFObjectHandle) : List QPDFObjectHandle :=
  match pages with
  | [] => [page]
  | q :: rest =>
    if sameObject q refpage then
      if before then page :: q :: rest else q :: page :: rest
    else q :: addPageAt rest page before refpage

/-- QPDF::removePage — remove the (first) position holding that object
identity from the page collection. -/
def removePage (pages : List QPDFObjectHandle) (page : QPDFObjectHandle) :
    List QPDFObjectHandle :=
  pages.eraseP (fun q => sameObject q page)

/-- PageList::deletePage — read the page at `index` (throwing index_error as
getPage does), then qpdf.removePage it. -/
def deletePage (s : QPDF) (index : Nat) : PdfResult :=
  match getPage s (index : Int) with
  | .error e => .error (e, s)
  | .ok page => .ok { s with pages := removePage s.pages page }

/-- The state after the ownership bookkeeping that opens
PageList::insertPage, before any index check: for a page whose owner is the
bound QPDF the fresh-id counter advances (qpdf.makeIndirectObject mints the
copy), otherwise a lifetime hold (inc_ref) is placed on the foreign owner. -/
def bookkept (s : QPDF) (page : QPDFObjectHandle) : QPDF :=
  if page.owner = s.graphId then { s with nextObjId := s.nextObjId + 1 }
  else { s with holds := page.owner :: s.holds }

/-- The handle actually placed into the page collection by
PageList::insertPage: the fresh indirect copy (same object value, new id,
owned by the bound QPDF) for a same-graph page, the original handle
otherwise. -/
def resolvedPage (s : QPDF) (page : QPDFObjectHandle) : QPDFObjectHandle :=
  if page.owner = s.graphId then { page with objId := s.nextObjId, owner := s.graphId }
  else page

/-- The placement step closing PageList::insertPage: append when `index`
equals the count, otherwise anchor on the current occupant of `index`
(getPage throwing index_error when `index` exceeds the count) and insert
immediately before it. -/
def placePage (s1 : QPDF) (index : Nat) (pg : QPDFObjectHandle) : PdfResult :=
  if index ≠ count s1 then
    match getPage s1 (index : Int) with
    | .error e => .error (e, s1)
    | .ok refpage => .ok { s1 with pages := addPageAt s1.pages pg true refpage }
  else
    .ok { s1 with pages := s1.pages ++ [pg] }

/-- PageList::insertPage(size_t, QPDFObjectHandle) — the ownership
bookkeeping (copy-on-reinsert or foreign hold, both decided by the one
owner test) happens first, then the placement against the index. -/
def insertPage (s : QPDF) (index : Nat) (page : QPDFObjectHandle) : PdfResult :=
  placePage (bookkept s page) index (resolvedPage s page)

/-- PageList::insertPage(size_t, py::handle) — cast the Python object to a
QPDFObjectHandle (cast failure and non-page objects both throw
py::type_error with the same message), then insert. -/
def insertPageObj (s : QPDF) (index : Nat) (obj : PyObject) : PdfResult :=
  match obj with
  | .nonPdf => .error (.typeError "only pages can be inserted", s)
  | .pdfObj page =>
    if !page.isPage then .error (.typeError "only pages can be inserted", s)
    else insertPage s index page

/-- PageList::setPage — insert, then, when `index` differs from the count
read AFTER the insert, delete the page now at index + 1. -/
def setPage (s : QPDF) (index : Nat) (page : PyObject) : PdfResult :=
  match insertPageObj s index page with
  | .error es => .error es
  | .ok s1 =>
    if index ≠ count s1 then deletePage s1 (index + 1)
    else .ok s1

/-- The up-front validation loop of setPagesFromIterable: every item of the
iterable must pass assert_pyobject_is_page; the handles are collected but no
mutation happens yet. -/
def validatePages : List PyObject → Except PdfError (List PyObject)
  | [] => .ok []
  | o :: rest =>
    match assert_pyobject_is_page o with
    | .error e => .error e
    | .ok _ =>
      match validatePages rest with
      | .error e => .error e
      | .ok rs => .ok (o :: rs)

/-- The extended-slice loop of setPagesFromIterable: setPage at
start + i * step for each source item in order. -/
def extendedAssign (s : QPDF) (pos step : Int) : List PyObject → PdfResult
  | [] => .ok s
  | o :: rest =>
    match setPage s pos.toNat o with
    | .error es => .error es
    | .ok s1 => extendedAssign s1 (pos + step) step rest

/-- The contiguous-slice insert loop of setPagesFromIterable: insertPage at
start + i for the i-th source item. -/
def insertLoop (s : QPDF) (pos : Nat) : List PyObject → PdfResult
  | [] => .ok s
  | o :: rest =>
    match insertPageObj s pos o with
    | .error es => .error es
    | .ok s1 => insertLoop s1 (pos + 1) rest

/-- The contiguous-slice delete loop of setPagesFromIterable: slicelength
deletions, all at the fixed position del_start. -/
def deleteLoop (del_start : Nat) : Nat → QPDF → PdfResult
  | 0, s => .ok s
  | k + 1, s =>
    match deletePage s del_start with
    | .error es => .error es
    | .ok s1 => deleteLoop del_start k s1

/-- PageList::setPagesFromIterable — resolve the slice against the live
count, validate every source item up front, then either the one-for-one
extended-slice regime (source length must equal the slice length) or the
contiguous regime (insert all sources first, then delete the original
occupants, which the insertions shifted to start at start + number of
sources). -/
def setPagesFromIterable (s : QPDF) (sl : PySlice) (other : List PyObject) : PdfResult :=
  match sliceCompute sl (count s) with
  | .error e => .error (e, s)
  | .ok (start, _stop, step, slicelength) =>
    match validatePages other with
    | .error e => .error (e, s)
    | .ok results =>
      if step ≠ 1 then
        if results.length ≠ slicelength then
          .error (.valueError ("attempt to assign sequence of length " ++
            toString results.length ++ " to extended slice of size " ++
            toString slicelength), s)
        else extendedAssign s start step results
      else
        match insertLoop s start.toNat results with
        | .error es => .error es
        | .ok s1 => deleteLoop (start.toNat + results.length) slicelength s1

/-- The slice-read loop of PageList::getPages: slicelength single reads at
start, start + step, start + 2*step, ... -/
def getPagesLoop (s : QPDF) : Int → Int → Nat → Except PdfError (List QPDFObjectHandle)
  | _, _, 0 => .ok []
  | start, step, k + 1 =>
    match getPage s start with
    | .error e => .error e
    | .ok oh =>
      match getPagesLoop s (start + step) step k with
      | .error e => .error e
      | .ok rest => .ok (oh :: rest)

/-- PageList::getPages — resolve the slice against the live count, then read
slicelength pages into an eager list. -/
def getPages (s : QPDF) (sl : PySlice) : Except PdfError (List QPDFObjectHandle) :=
  match sliceCompute sl (count s) with
  | .error e => .error e
  | .ok (start, _stop, step, slicelength) => getPagesLoop s start step slicelength

/-- The reverse lambda of init_pagelist — read the full backward slice
[::-1], then assign it over the ordinary slice (0, count, 1). -/
def reverse (s : QPDF) : PdfResult :=
  let ordinary_indices : PySlice := ⟨some 0, some (count s : Int), some 1⟩
  let reversed : PySlice := ⟨none, none, some (-1)⟩
  match getPages s reversed with
  | .error e => .error (e, s)
  | .ok reversed_pages =>
    setPagesFromIterable s ordinary_indices (reversed_pages.map PyObject.pdfObj)

/-- The p lambda of init_pagelist — 1-based page lookup: index 0 throws
py::index_error, otherwise getPage(index - 1). -/
def p (s : QPDF) (index : Nat) : Except PdfError QPDFObjectHandle :=
  if index = 0 then .error (.indexError "can't access page 0 in 1-based indexing")
  else getPage s ((index : Int) - 1)

/-- The extend(PageList, PageList) loop body, specialised to the aliased call
extend(pl, pl) (extending a page list with itself): both references denote
the same QPDF, so other.count() reads the state being mutated.  The captured
other_count bounds the iteration; `fuel` counts the remaining iterations and
`i` is the loop index (fuel + i = other_count on every call). -/
def extendSelfAux (other_count : Nat) : Nat → Nat → QPDF → PdfResult
  | 0, _, s => .ok s
  | fuel + 1, i, s =>
    if other_count ≠ count s then
      .error (.valueError "source page list modified during iteration", s)
    else
      match getPage s (i : Int) with
      | .error e => .error (e, s)
      | .ok page =>
        match insertPage s (count s) page with
        | .error es => .error es
        | .ok s1 => extendSelfAux other_count fuel (i + 1) s1

/-- The extend(PageList, PageList) lambda of init_pagelist applied to the
page list itself: capture other_count = other.count() once, then for each
i < other_count re-check the live count and append other.getPage(i). -/
def extendSelf (s : QPDF) : PdfResult :=
  extendSelfAux (count s) (count s) 0 s

end PageList

/-- Identity key of a handle: indirect object id plus owning graph. -/
def pageKey (p : QPDFObjectHandle) : Nat × Nat :=
  (p.objId, p.owner)

/-- Well-formedness of a QPDF state, maintained by qpdf itself: no two
positions of the page collection share an object identity, and every page
owned by this graph has an id below the fresh-id counter. -/
def WF (s : QPDF) : Prop :=
  (s.pages.map pageKey).Nodup ∧
  ∀ p ∈ s.pages, p.owner = s.graphId → p.objId < s.nextObjId

instance (s : QPDF) : Decidable (WF s) := by
  unfold WF; infer_instance

/-- A sample page handle for concrete instantiations: page A of the sample
document (graph 7). -/
def pageA : QPDFObjectHandle := ⟨1, 7, true, 100⟩

/-- Page B of the sample document. -/
def pageB : QPDFObjectHandle := ⟨2, 7, true, 200⟩

/-- Page C of the sample document. -/
def pageC : QPDFObjectHandle := ⟨3, 7, true, 300⟩

/-- A page owned by a different document (graph 9). -/
def foreignPage : QPDFObjectHandle := ⟨1, 9, true, 900⟩

/-- A three-page sample document used to instantiate the theorems. -/
def sampleDoc : QPDF := ⟨7, [pageA, pageB, pageC], 10, []⟩

/-- A two-page sample document. -/
def sampleDoc2 : QPDF := ⟨7, [pageA, pageB], 10, []⟩

/-- A one-page sample document. -/
def sampleDoc1 : QPDF := ⟨7, [pageA], 10, []⟩

/- Helper lemmas about object identity, list surgery and the primitive
operations. -/

theorem sameObject_iff (a b : QPDFObjectHandle) :
    sameObject a b = true ↔ pageKey a = pageKey b := by
  simp [sameObject, pageKey, Prod.ext_iff]

theorem sameObject_self (a : QPDFObjectHandle) : sameObject a a = true := by
  simp [sameObject]

theorem getPage_nat (s : QPDF) (idx : Nat) (h : idx < s.pages.length) :
    PageList.getPage s (idx : Int) = .ok s.pages[idx] := by
  have h0 : ¬((idx : Int) < 0) := by omega
  simp only [PageList.getPage, h0, if_false, Int.toNat_natCast]
  rw [dif_pos h]
  simp

theorem getPage_nat_oob (s : QPDF) (idx : Nat) (h : s.pages.length ≤ idx) :
    PageList.getPage s (idx : Int) =
      .error (.indexError "Accessing nonexistent PDF page number") := by
  have h0 : ¬((idx : Int) < 0) := by omega
  simp only [PageList.getPage, h0, if_false, Int.toNat_natCast]
  rw [dif_neg (by omega)]

theorem getElem_append_len (A : List QPDFObjectHandle) (b : QPDFObjectHandle)
    (C : List QPDFObjectHandle) (h : A.length < (A ++ b :: C).length) :
    (A ++ b :: C)[A.length] = b := by
  induction A with
  | nil => rfl
  | cons a A ih => simpa using ih (by simp)


theorem sameObject_false_of_key_ne (a b : QPDFObjectHandle)
    (h : pageKey a ≠ pageKey b) : sameObject a b = false := by
  rw [← Bool.not_eq_true]
  intro hs
  exact h ((sameObject_iff a b).1 hs)

theorem head_key_ne_getElem (q : QPDFObjectHandle) (rest : List QPDFObjectHandle)
    (idx : Nat) (h : idx < rest.length)
    (hND : ((q :: rest).map pageKey).Nodup) : pageKey q ≠ pageKey rest[idx] := by
  simp only [List.map_cons, List.nodup_cons] at hND
  intro he
  exact hND.1 (he ▸ List.mem_map_of_mem _ (List.getElem_mem h))

theorem addPageAt_insert (pages : List QPDFObjectHandle) (pg : QPDFObjectHandle)
    (idx : Nat) (h : idx < pages.length) (hND : (pages.map pageKey).Nodup) :
    PageList.addPageAt pages pg true pages[idx] =
      pages.take idx ++ pg :: pages.drop idx := by
  induction pages generalizing idx with
  | nil => simp at h
  | cons q rest ih =>
    rcases idx with _ | idx
    · simp [PageList.addPageAt, sameObject_self]
    · have hlen : idx < rest.length := by simpa using h
      have hne : sameObject q rest[idx] = false :=
        sameObject_false_of_key_ne _ _ (head_key_ne_getElem q rest idx hlen hND)
      simp only [List.getElem_cons_succ, List.take_succ_cons, List.drop_succ_cons]
      rw [show PageList.addPageAt (q :: rest) pg true rest[idx] =
          q :: PageList.addPageAt rest pg true rest[idx] by
        simp [PageList.addPageAt, hne]]
      rw [ih idx hlen (by simpa using (List.nodup_cons.1 (by simpa using hND)).2)]
      simp

theorem removePage_at (pages : List QPDFObjectHandle) (idx : Nat)
    (h : idx < pages.length) (hND : (pages.map pageKey).Nodup) :
    PageList.removePage pages pages[idx] =
      pages.take idx ++ pages.drop (idx + 1) := by
  induction pages generalizing idx with
  | nil => simp at h
  | cons q rest ih =>
    rcases idx with _ | idx
    · simp [PageList.removePage, List.eraseP_cons, sameObject_self]
    · have hlen : idx < rest.length := by simpa using h
      have hne : sameObject q rest[idx] = false :=
        sameObject_false_of_key_ne _ _ (head_key_ne_getElem q rest idx hlen hND)
      simp only [List.getElem_cons_succ, List.take_succ_cons, List.drop_succ_cons]
      rw [show PageList.removePage (q :: rest) rest[idx] =
          q :: PageList.removePage rest rest[idx] by
        simp [PageList.removePage, List.eraseP_cons, hne]]
      rw [ih idx hlen (by simpa using (List.nodup_cons.1 (by simpa using hND)).2)]
      simp

theorem bookkept_pages (s : QPDF) (page : QPDFObjectHandle) :
    (PageList.bookkept s page).pages = s.pages := by
  unfold PageList.bookkept; split <;> rfl

theorem bookkept_graphId (s : QPDF) (page : QPDFObjectHandle) :
    (PageList.bookkept s page).graphId = s.graphId := by
  unfold PageList.bookkept; split <;> rfl

theorem placePage_ok (s1 : QPDF) (idx : Nat) (pg : QPDFObjectHandle)
    (hND : (s1.pages.map pageKey).Nodup) (hidx : idx ≤ s1.pages.length) :
    PageList.placePage s1 idx pg =
      .ok { s1 with pages := s1.pages.take idx ++ pg :: s1.pages.drop idx } := by
  rcases Nat.lt_or_ge idx s1.pages.length with hlt | hge
  · have hcnt : idx ≠ PageList.count s1 := by
      simp only [PageList.count]; omega
    simp only [PageList.placePage, if_pos hcnt, getPage_nat s1 idx hlt]
    rw [addPageAt_insert s1.pages pg idx hlt hND]
  · have heq : idx = s1.pages.length := by omega
    subst heq
    simp [PageList.placePage, PageList.count, List.take_length, List.drop_length]

theorem insertPage_ok (s : QPDF) (idx : Nat) (page : QPDFObjectHandle)
    (hND : (s.pages.map pageKey).Nodup) (hidx : idx ≤ s.pages.length) :
    PageList.insertPage s idx page =
      .ok { PageList.bookkept s page with
            pages := s.pages.take idx ++ PageList.resolvedPage s page :: s.pages.drop idx } := by
  unfold PageList.insertPage
  rw [placePage_ok (PageList.bookkept s page) idx (PageList.resolvedPage s page)
    (by rw [bookkept_pages]; exact hND) (by rw [bookkept_pages]; exact hidx)]
  rw [bookkept_pages]

theorem deletePage_ok (s : QPDF) (idx : Nat)
    (hND : (s.pages.map pageKey).Nodup) (hidx : idx < s.pages.length) :
    PageList.deletePage s idx =
      .ok { s with pages := s.pages.take idx ++ s.pages.drop (idx + 1) } := by
  unfold PageList.deletePage
  rw [getPage_nat s idx hidx]
  show Except.ok { s with pages := PageList.removePage s.pages s.pages[idx] } = _
  rw [removePage_at s.pages idx hidx hND]

theorem length_insert_pages (pages : List QPDFObjectHandle) (idx : Nat)
    (pg : QPDFObjectHandle) (hidx : idx ≤ pages.length) :
    (pages.take idx ++ pg :: pages.drop idx).length = pages.length + 1 := by
  simp [List.length_append, List.length_take, List.length_drop]
  omega

theorem WF_insert_samegraph (s : QPDF) (idx : Nat) (page : QPDFObjectHandle)
    (hWF : WF s) (hown : page.owner = s.graphId) :
    WF { PageList.bookkept s page with
         pages := s.pages.take idx ++ PageList.resolvedPage s page :: s.pages.drop idx } := by
  have hbk : PageList.bookkept s page = { s with nextObjId := s.nextObjId + 1 } := by
    simp [PageList.bookkept, hown]
  have hres : PageList.resolvedPage s page =
      { page with objId := s.nextObjId, owner := s.graphId } := by
    simp [PageList.resolvedPage, hown]
  rw [hbk, hres]
  unfold WF
  dsimp only
  refine ⟨?_, ?_⟩
  · rw [List.map_append, List.map_cons, List.nodup_middle, List.nodup_cons,
      ← List.map_append, List.take_append_drop]
    refine ⟨?_, hWF.1⟩
    intro hmem
    rcases List.mem_map.1 hmem with ⟨p, hp, hkey⟩
    simp only [pageKey, Prod.mk.injEq] at hkey
    have := hWF.2 p hp hkey.2
    omega
  · intro p hp hpo
    rcases List.mem_append.1 hp with h1 | h2
    · have := hWF.2 p (List.take_subset _ _ h1) hpo
      omega
    · rcases List.mem_cons.1 h2 with rfl | h3
      · simp
      · have := hWF.2 p (List.drop_subset _ _ h3) hpo
        omega

theorem WF_delete (s : QPDF) (idx : Nat) (hWF : WF s) :
    WF { s with pages := s.pages.take idx ++ s.pages.drop (idx + 1) } := by
  have hdrop : (s.pages.drop (idx + 1)).Sublist (s.pages.drop idx) := by
    rcases Nat.lt_or_ge idx s.pages.length with hlt | hge
    · rw [List.drop_eq_getElem_cons hlt]
      exact List.sublist_cons_self _ _
    · rw [List.drop_eq_nil_of_le (by omega), List.drop_eq_nil_of_le (by omega)]
  have hsub : (s.pages.take idx ++ s.pages.drop (idx + 1)).Sublist s.pages := by
    conv_rhs => rw [← List.take_append_drop idx s.pages]
    exact List.Sublist.append_left hdrop _
  unfold WF
  dsimp only
  refine ⟨?_, ?_⟩
  · exact List.Nodup.sublist (hsub.map pageKey) hWF.1
  · intro p hp hpo
    exact hWF.2 p (hsub.subset hp) hpo

theorem take_len_succ_append {α : Type} (A : List α) (x : α) (D : List α) :
    (A ++ x :: D).take (A.length + 1) = A ++ [x] := by
  induction A with
  | nil => simp
  | cons a A ih => simp [ih]

theorem drop_len_succ_append {α : Type} (A : List α) (x : α) (D : List α) :
    (A ++ x :: D).drop (A.length + 1) = D := by
  induction A with
  | nil => simp
  | cons a A ih => simp [ih]

theorem take_len_append {α : Type} (A : List α) (D : List α) :
    (A ++ D).take A.length = A := by
  induction A with
  | nil => simp
  | cons a A ih => simp [ih]

theorem assert_error_typeError (o : PyObject) (e : PdfError)
    (h : assert_pyobject_is_page o = .error e) : ∃ msg, e = .typeError msg := by
  rcases o with hO | _
  · by_cases hp : hO.isPage = true
    · simp [assert_pyobject_is_page, hp] at h
    · simp [assert_pyobject_is_page, hp] at h
      exact ⟨_, h.symm⟩
  · exact ⟨_, (Except.error.inj h).symm⟩

theorem validatePages_error_typeError (others : List PyObject) (e : PdfError)
    (h : PageList.validatePages others = .error e) : ∃ msg, e = .typeError msg := by
  induction others with
  | nil => cases h
  | cons o rest ih =>
    unfold PageList.validatePages at h
    rcases ha : assert_pyobject_is_page o with e' | u
    · rw [ha] at h
      obtain rfl := Except.error.inj h
      exact assert_error_typeError o e' ha
    · rw [ha] at h
      rcases hv : PageList.validatePages rest with e' | rs
      · rw [hv] at h
        obtain rfl := Except.error.inj h
        exact ih hv
      · rw [hv] at h
        cases h

theorem validatePages_pages (srcs : List QPDFObjectHandle)
    (h : ∀ x ∈ srcs, x.isPage = true) :
    PageList.validatePages (srcs.map PyObject.pdfObj) =
      .ok (srcs.map PyObject.pdfObj) := by
  induction srcs with
  | nil => rfl
  | cons x rest ih =>
    have hx : x.isPage = true := h x (by simp)
    simp [PageList.validatePages, assert_pyobject_is_page, hx,
      ih (fun y hy => h y (by simp [hy]))]

theorem validatePages_ok_id (others rs : List PyObject)
    (h : PageList.validatePages others = .ok rs) : rs = others := by
  induction others generalizing rs with
  | nil => cases h; rfl
  | cons o rest ih =>
    unfold PageList.validatePages at h
    rcases ha : assert_pyobject_is_page o with e' | u
    · rw [ha] at h; cases h
    · rw [ha] at h
      rcases hv : PageList.validatePages rest with e' | rs' <;> rw [hv] at h
      · cases h
      · cases h
        rw [ih rs' hv]

theorem insertLoop_spec (srcs : List QPDFObjectHandle) :
    ∀ (s : QPDF) (pos : Nat), WF s → pos ≤ s.pages.length →
    (∀ x ∈ srcs, x.owner = s.graphId ∧ x.isPage = true) →
    ∃ (copies : List QPDFObjectHandle) (s2 : QPDF),
      PageList.insertLoop s pos (srcs.map PyObject.pdfObj) = .ok s2 ∧
      s2.graphId = s.graphId ∧
      s2.holds = s.holds ∧
      s2.nextObjId = s.nextObjId + srcs.length ∧
      s2.pages = s.pages.take pos ++ copies ++ s.pages.drop pos ∧
      copies.map QPDFObjectHandle.content = srcs.map QPDFObjectHandle.content ∧
      copies.length = srcs.length ∧
      (∀ c ∈ copies, c.owner = s.graphId ∧ c.isPage = true) ∧
      WF s2 := by
  induction srcs with
  | nil =>
    intro s pos hWF hpos hsrc
    refine ⟨[], s, rfl, rfl, rfl, rfl, ?_, rfl, rfl, by simp, hWF⟩
    simp [List.take_append_drop]
  | cons src rest ih =>
    intro s pos hWF hpos hsrc
    have hown : src.owner = s.graphId := (hsrc src (by simp)).1
    have hpg : src.isPage = true := (hsrc src (by simp)).2
    set s1 : QPDF :=
      { PageList.bookkept s src with
        pages := s.pages.take pos ++ PageList.resolvedPage s src :: s.pages.drop pos }
      with hs1
    have hstep : PageList.insertPageObj s pos (PyObject.pdfObj src) = .ok s1 := by
      simp only [PageList.insertPageObj, hpg, Bool.not_true, if_false]
      exact insertPage_ok s pos src hWF.1 hpos
    have hWF1 : WF s1 := WF_insert_samegraph s pos src hWF hown
    have hg1 : s1.graphId = s.graphId := by
      rw [hs1]; exact bookkept_graphId s src
    have hn1 : s1.nextObjId = s.nextObjId + 1 := by
      rw [hs1]; simp [PageList.bookkept, hown]
    have hh1 : s1.holds = s.holds := by
      rw [hs1]; simp [PageList.bookkept, hown]
    have hp1 : s1.pages = s.pages.take pos ++ PageList.resolvedPage s src :: s.pages.drop pos := by
      rw [hs1]
    have hlen1 : s1.pages.length = s.pages.length + 1 := by
      rw [hp1]; exact length_insert_pages s.pages pos _ hpos
    rcases ih s1 (pos + 1) hWF1 (by omega)
        (fun x hx => by
          rw [hg1]; exact hsrc x (by simp [hx])) with
      ⟨copies', s2, hrun, hg2, hh2, hn2, hp2, hc2, hl2, ho2, hWF2⟩
    refine ⟨PageList.resolvedPage s src :: copies', s2, ?_, ?_, ?_, ?_, ?_, ?_, ?_, ?_, hWF2⟩
    · simp only [List.map_cons, PageList.insertLoop, hstep, hrun]
    · rw [hg2, hg1]
    · rw [hh2, hh1]
    · rw [hn2, hn1]; simp; omega
    · rw [hp2, hp1]
      have hlt : (s.pages.take pos).length = pos := by
        simp [List.length_take]; omega
      rw [show pos + 1 = (s.pages.take pos).length + 1 by omega]
      rw [take_len_succ_append, drop_len_succ_append]
      simp
    · simp only [List.map_cons, hc2]
      congr 1
      simp [PageList.resolvedPage, hown]
    · simp [hl2]
    · intro c hc
      rcases List.mem_cons.1 hc with rfl | h3
      · constructor
        · simp [PageList.resolvedPage, hown]
        · simp [PageList.resolvedPage, hown, hpg]
      · have := ho2 c h3
        rw [hg1] at this
        exact this

theorem deleteLoop_spec (B : List QPDFObjectHandle) :
    ∀ (s : QPDF) (A C : List QPDFObjectHandle),
    s.pages = A ++ (B ++ C) → (s.pages.map pageKey).Nodup →
    PageList.deleteLoop A.length B.length s = .ok { s with pages := A ++ C } := by
  induction B with
  | nil =>
    intro s A C hp hND
    simp only [List.length_nil, PageList.deleteLoop]
    congr 1
    rcases s with ⟨g, P, nid, hd⟩
    simp only at hp
    simp at hp
    simp [hp]
  | cons b B' ih =>
    intro s A C hp hND
    have hsplit : s.pages = A ++ b :: (B' ++ C) := by rw [hp]; simp
    have hlen : A.length < s.pages.length := by
      rw [hsplit]; simp
    have hdel := deletePage_ok s A.length hND hlen
    rw [show s.pages.take A.length = A by rw [hsplit]; exact take_len_append A _,
      show s.pages.drop (A.length + 1) = B' ++ C by
        rw [hsplit]; exact drop_len_succ_append A b _] at hdel
    have hND1 : ((A ++ (B' ++ C)).map pageKey).Nodup := by
      have hsub : (A ++ (B' ++ C)).Sublist s.pages := by
        rw [hsplit]; exact List.Sublist.append_left (List.sublist_cons_self b _) A
      exact List.Nodup.sublist (hsub.map pageKey) hND
    have hrec := ih { s with pages := A ++ (B' ++ C) } A C (by simp) (by simpa using hND1)
    simp only [List.length_cons, PageList.deleteLoop, hdel, hrec]

theorem sliceAdjust_bounds (n step v : Int) (hstep : ¬step < 0) (hn : 0 ≤ n) :
    0 ≤ sliceAdjust n step v ∧ sliceAdjust n step v ≤ n := by
  simp only [sliceAdjust]
  split_ifs
  all_goals omega

theorem sliceStart_bounds (sl : PySlice) (n step : Int) (hstep : ¬step < 0)
    (hn : 0 ≤ n) : 0 ≤ sliceStart sl n step ∧ sliceStart sl n step ≤ n := by
  unfold sliceStart
  rcases sl.start with _ | v
  · simp only
    split_ifs
    all_goals omega
  · exact sliceAdjust_bounds n step v hstep hn

theorem sliceStop_bounds (sl : PySlice) (n step : Int) (hstep : ¬step < 0)
    (hn : 0 ≤ n) : 0 ≤ sliceStop sl n step ∧ sliceStop sl n step ≤ n := by
  unfold sliceStop
  rcases sl.stop with _ | v
  · simp only
    split_ifs
    all_goals omega
  · exact sliceAdjust_bounds n step v hstep hn

theorem sliceLen_one (start stop : Int) :
    sliceLen start stop 1 = (stop - start).toNat := by
  unfold sliceLen
  split_ifs
  all_goals omega

theorem sliceCompute_elim (sl : PySlice) (n : Nat) (st sp stp : Int) (L : Nat)
    (h : sliceCompute sl n = .ok (st, sp, stp, L)) :
    stp = sl.step.getD 1 ∧ stp ≠ 0 ∧ st = sliceStart sl n stp ∧
      sp = sliceStop sl n stp ∧ L = sliceLen st sp stp := by
  by_cases h0 : sl.step.getD 1 = 0
  · simp [sliceCompute, h0] at h
  · simp only [sliceCompute, h0, if_false] at h
    simp only [Except.ok.injEq, Prod.mk.injEq] at h
    obtain ⟨h1, h2, h3, h4⟩ := h
    subst h1; subst h2; subst h3; subst h4
    exact ⟨rfl, h0, rfl, rfl, rfl⟩

theorem sliceCompute_step1_bounds (sl : PySlice) (n : Nat) (st sp : Int) (L : Nat)
    (h : sliceCompute sl n = .ok (st, sp, 1, L)) :
    0 ≤ st ∧ st.toNat + L ≤ n := by
  obtain ⟨-, -, hst, hsp, hL⟩ := sliceCompute_elim sl n st sp 1 L h
  have hst' := sliceStart_bounds sl n 1 (by omega) (by omega)
  have hsp' := sliceStop_bounds sl n 1 (by omega) (by omega)
  rw [← hst] at hst'
  rw [← hsp] at hsp'
  rw [hL, sliceLen_one]
  omega

theorem WF_sublist (s : QPDF) (P : List QPDFObjectHandle) (hWF : WF s)
    (hsub : P.Sublist s.pages) : WF { s with pages := P } := by
  unfold WF
  dsimp only
  refine ⟨List.Nodup.sublist (hsub.map pageKey) hWF.1, ?_⟩
  intro p hp hpo
  exact hWF.2 p (hsub.subset hp) hpo

theorem setSlice_step1_spec (s : QPDF) (sl : PySlice) (srcs : List QPDFObjectHandle)
    (st sp : Int) (L : Nat) (hWF : WF s)
    (hc : sliceCompute sl (PageList.count s) = .ok (st, sp, 1, L))
    (hsrc : ∀ x ∈ srcs, x.owner = s.graphId ∧ x.isPage = true) :
    ∃ (copies : List QPDFObjectHandle) (s2 : QPDF),
      PageList.setPagesFromIterable s sl (srcs.map PyObject.pdfObj) = .ok s2 ∧
      s2.graphId = s.graphId ∧
      s2.pages = s.pages.take st.toNat ++ copies ++ s.pages.drop (st.toNat + L) ∧
      copies.map QPDFObjectHandle.content = srcs.map QPDFObjectHandle.content ∧
      copies.length = srcs.length ∧
      (∀ c ∈ copies, c.owner = s.graphId ∧ c.isPage = true) ∧
      WF s2 ∧
      PageList.count s2 = PageList.count s - L + srcs.length := by
  have hb := sliceCompute_step1_bounds sl (PageList.count s) st sp L hc
  simp only [PageList.count] at hb
  have hposle : st.toNat ≤ s.pages.length := by omega
  obtain ⟨copies, s1, hrun, hg1, hh1, hn1, hp1, hc1, hl1, ho1, hWF1⟩ :=
    insertLoop_spec srcs s st.toNat hWF hposle hsrc
  have hsplit : s.pages.drop st.toNat
      = (s.pages.drop st.toNat).take L ++ (s.pages.drop st.toNat).drop L :=
    (List.take_append_drop L _).symm
  rw [hsplit] at hp1
  have hlenA : (s.pages.take st.toNat ++ copies).length = st.toNat + srcs.length := by
    simp only [List.length_append, List.length_take]
    omega
  have hlenB : ((s.pages.drop st.toNat).take L).length = L := by
    simp only [List.length_take, List.length_drop]
    omega
  have hCdrop : (s.pages.drop st.toNat).drop L = s.pages.drop (st.toNat + L) := by
    rw [List.drop_drop]
  have hdel := deleteLoop_spec ((s.pages.drop st.toNat).take L) s1
    (s.pages.take st.toNat ++ copies) ((s.pages.drop st.toNat).drop L)
    hp1 hWF1.1
  rw [hlenA, hlenB] at hdel
  refine ⟨copies,
    { s1 with pages := (s.pages.take st.toNat ++ copies) ++ (s.pages.drop st.toNat).drop L },
    ?_, ?_, ?_, hc1, hl1, ho1, ?_, ?_⟩
  · simp only [PageList.setPagesFromIterable, hc,
      validatePages_pages srcs (fun x hx => (hsrc x hx).2)]
    simp only [ne_eq, not_true_eq_false, if_false, ite_false]
    rw [hrun]
    simp only [List.length_map]
    exact hdel
  · simp [hg1]
  · rw [hCdrop]
  · refine WF_sublist s1 _ hWF1 ?_
    rw [hp1]
    exact List.Sublist.append_left
      (List.sublist_append_right ((s.pages.drop st.toNat).take L) _) _
  · simp only [PageList.count, List.length_append, List.length_take, List.length_drop]
    omega

theorem sliceCompute_rev (n : Nat) :
    sliceCompute ⟨none, none, some (-1)⟩ n = .ok ((n : Int) - 1, -1, -1, n) := by
  have h0 : ((-1 : Int) = 0) = False := by norm_num
  simp only [sliceCompute, Option.getD, h0, if_false, sliceStart, sliceStop, sliceLen]
  norm_num
  omega

theorem sliceCompute_ordinary (n : Nat) :
    sliceCompute ⟨some 0, some (n : Int), some 1⟩ n = .ok (0, n, 1, n) := by
  have h0 : ((1 : Int) = 0) = False := by norm_num
  simp only [sliceCompute, Option.getD, h0, if_false, sliceStart, sliceStop,
    sliceAdjust, sliceLen]
  norm_num
  split_ifs
  all_goals omega

theorem getPagesLoop_rev (s : QPDF) (k : Nat) (hk : k ≤ s.pages.length) :
    PageList.getPagesLoop s ((k : Int) - 1) (-1) k = .ok (s.pages.take k).reverse := by
  induction k with
  | zero => simp [PageList.getPagesLoop]
  | succ k ih =>
    have hklt : k < s.pages.length := by omega
    have hstart : ((k + 1 : Nat) : Int) - 1 = (k : Int) := by push_cast; ring
    rw [show PageList.getPagesLoop s (((k + 1 : Nat) : Int) - 1) (-1) (k + 1)
        = PageList.getPagesLoop s (k : Int) (-1) (k + 1) by rw [hstart]]
    have hnext : (k : Int) + -1 = ((k : Nat) : Int) - 1 := by ring
    simp only [PageList.getPagesLoop, getPage_nat s k hklt, hnext, ih (by omega)]
    rw [← List.take_concat_get' s.pages k hklt, List.reverse_append,
      List.reverse_singleton, List.singleton_append]

theorem getPages_rev (s : QPDF) :
    PageList.getPages s ⟨none, none, some (-1)⟩ = .ok s.pages.reverse := by
  unfold PageList.getPages
  rw [show PageList.count s = s.pages.length from rfl]
  rw [sliceCompute_rev s.pages.length]
  show PageList.getPagesLoop s ((s.pages.length : Int) - 1) (-1) s.pages.length
      = .ok s.pages.reverse
  rw [getPagesLoop_rev s s.pages.length (Nat.le_refl _)]
  rw [List.take_length]

theorem reverse_spec (s : QPDF) (hWF : WF s)
    (hown : ∀ p ∈ s.pages, p.owner = s.graphId ∧ p.isPage = true) :
    ∃ s2 : QPDF, PageList.reverse s = .ok s2 ∧
      s2.graphId = s.graphId ∧
      s2.pages.map QPDFObjectHandle.content
        = (s.pages.map QPDFObjectHandle.content).reverse ∧
      PageList.count s2 = PageList.count s ∧
      WF s2 ∧
      (∀ p ∈ s2.pages, p.owner = s2.graphId ∧ p.isPage = true) := by
  obtain ⟨copies, s2, hrun, hg, hpages, hcont, hlen, hcop, hWF2, hcount⟩ :=
    setSlice_step1_spec s ⟨some 0, some (PageList.count s : Int), some 1⟩
      s.pages.reverse 0 (PageList.count s) (PageList.count s) hWF
      (sliceCompute_ordinary (PageList.count s))
      (fun x hx => hown x (List.mem_reverse.1 hx))
  have hpages' : s2.pages = copies := by
    rw [hpages]
    simp [PageList.count]
  refine ⟨s2, ?_, hg, ?_, ?_, hWF2, ?_⟩
  · unfold PageList.reverse
    simp only [getPages_rev s]
    exact hrun
  · rw [hpages', hcont, List.map_reverse]
  · rw [hcount]
    simp only [List.length_reverse, PageList.count]
    omega
  · intro p hp
    rw [hpages'] at hp
    exact ⟨by rw [hg]; exact (hcop p hp).1, (hcop p hp).2⟩

theorem getPage_eq (s : QPDF) (i : Int) :
    PageList.getPage s i =
      if h : 0 ≤ (if i < 0 then i + s.pages.length else i) ∧
          (if i < 0 then i + s.pages.length else i) < s.pages.length
      then .ok (s.pages.get
        ⟨(if i < 0 then i + s.pages.length else i).toNat, by omega⟩)
      else .error (.indexError "Accessing nonexistent PDF page number") := by
  unfold PageList.getPage
  by_cases h0 : (if i < 0 then i + (s.pages.length : Int) else i) < 0
  · rw [if_pos h0, dif_neg (by omega)]
  · rw [if_neg h0]
    by_cases h1 : (if i < 0 then i + (s.pages.length : Int) else i).toNat < s.pages.length
    · rw [dif_pos h1, dif_pos (by omega)]
    · rw [dif_neg h1, dif_neg (by omega)]

theorem insertPage_at_count (s : QPDF) (page : QPDFObjectHandle) :
    PageList.insertPage s (PageList.count s) page =
      .ok { PageList.bookkept s page with
            pages := s.pages ++ [PageList.resolvedPage s page] } := by
  unfold PageList.insertPage PageList.placePage
  rw [if_neg (by simp [PageList.count, bookkept_pages])]
  rw [bookkept_pages]

/-- C2: getPage normalizes a negative index by adding the current page count;
if the result is still negative, or the normalized index is at least the
count, it fails with the out-of-range index error; otherwise it returns the
page at the normalized position (the operation is state-free, as its result
type shows, so it has no side effects).  In particular getPage(-1) returns
the page at position count - 1 and getPage(-count-1) fails out-of-range. -/
theorem C2_getPage_contract (s : QPDF) (i : Int) :
    (((if i < 0 then i + (PageList.count s : Int) else i) < 0 ∨
        (PageList.count s : Int) ≤ (if i < 0 then i + (PageList.count s : Int) else i)) →
      PageList.getPage s i =
        .error (.indexError "Accessing nonexistent PDF page number")) ∧
    ((0 ≤ (if i < 0 then i + (PageList.count s : Int) else i) ∧
        (if i < 0 then i + (PageList.count s : Int) else i) < (PageList.count s : Int)) →
      ∃ p, PageList.getPage s i = .ok p ∧
        s.pages[(if i < 0 then i + (PageList.count s : Int) else i).toNat]? = some p) ∧
    (1 ≤ PageList.count s →
      ∃ p, PageList.getPage s (-1) = .ok p ∧
        s.pages[PageList.count s - 1]? = some p) ∧
    PageList.getPage s (-(PageList.count s : Int) - 1) =
      .error (.indexError "Accessing nonexistent PDF page number") := by
  simp only [PageList.count]
  refine ⟨?_, ?_, ?_, ?_⟩
  · intro hj
    rw [getPage_eq]
    rw [dif_neg (by omega)]
  · intro hj
    rw [getPage_eq, dif_pos (by omega)]
    refine ⟨_, rfl, ?_⟩
    rw [List.getElem?_eq_getElem (by omega)]
    simp
  · intro h1
    rw [getPage_eq]
    have hif : (if (-1 : Int) < 0 then (-1 : Int) + s.pages.length else -1)
        = (s.pages.length : Int) - 1 := by
      rw [if_pos (by norm_num)]
      ring
    rw [dif_pos (by rw [hif]; omega)]
    refine ⟨_, rfl, ?_⟩
    rw [List.getElem?_eq_getElem (by omega)]
    simp only [Option.some.injEq, List.get_eq_getElem]
    have hidx : (if (-1 : Int) < 0 then (-1 : Int) + s.pages.length else -1).toNat
        = s.pages.length - 1 := by
      rw [hif]; omega
    simp only [hidx]
  · rw [getPage_eq]
    rw [dif_neg (by
      split_ifs
      all_goals omega)]

/-- Witness for C2 at the three-page sample document. -/
theorem C2_getPage_contract_witness :
    ((5 : Int) < 0 ∨ (PageList.count sampleDoc : Int) ≤ 5) ∧
    PageList.getPage sampleDoc 5 =
      .error (.indexError "Accessing nonexistent PDF page number") := by
  refine ⟨by decide, ?_⟩
  have h := (C2_getPage_contract sampleDoc 5).1 (by decide)
  exact h

/-- C9: the 1-based accessor p(n) agrees with getPage(n-1) for every n from
1 up, and p(0) fails explicitly with an out-of-range index error rather than
mapping anywhere. -/
theorem C9_p_ordinal (s : QPDF) :
    PageList.p s 0 = .error (.indexError "can't access page 0 in 1-based indexing") ∧
    ∀ n : Nat, 1 ≤ n → PageList.p s n = PageList.getPage s ((n : Int) - 1) := by
  constructor
  · rfl
  · intro n hn
    unfold PageList.p
    rw [if_neg (by omega)]

/-- Witness for C9 at the three-page sample document: p(0) fails and p(1)
equals getPage(0). -/
theorem C9_p_ordinal_witness :
    (1 : Nat) ≤ 1 ∧
    PageList.p sampleDoc 1 = PageList.getPage sampleDoc ((1 : Int) - 1) ∧
    PageList.p sampleDoc 0 =
      .error (.indexError "can't access page 0 in 1-based indexing") :=
  ⟨by decide, (C9_p_ordinal sampleDoc).2 1 (by decide), (C9_p_ordinal sampleDoc).1⟩

/-- C10: insertPage with an index strictly greater than the current page
count raises the out-of-range index error and leaves the page collection
(count and ordering) unchanged; but the ownership bookkeeping — the fresh
indirect copy minted for a same-graph page (the id counter advances), or the
lifetime hold placed on a foreign owner — happens before the index check, so
that side effect occurs even on the failing call. -/
theorem C10_insert_oob (s : QPDF) (page : QPDFObjectHandle) (idx : Nat)
    (h : PageList.count s < idx) :
    ∃ s1 : QPDF,
      PageList.insertPage s idx page =
        .error (.indexError "Accessing nonexistent PDF page number", s1) ∧
      s1.pages = s.pages ∧
      (page.owner = s.graphId →
        s1.nextObjId = s.nextObjId + 1 ∧ s1.holds = s.holds) ∧
      (page.owner ≠ s.graphId →
        s1.holds = page.owner :: s.holds ∧ s1.nextObjId = s.nextObjId) := by
  simp only [PageList.count] at h
  refine ⟨PageList.bookkept s page, ?_, bookkept_pages s page, ?_, ?_⟩
  · unfold PageList.insertPage PageList.placePage
    rw [if_pos (by simp only [PageList.count, bookkept_pages]; omega)]
    rw [getPage_nat_oob (PageList.bookkept s page) idx
      (by rw [bookkept_pages]; omega)]
  · intro hown
    simp [PageList.bookkept, hown]
  · intro hown
    simp [PageList.bookkept, hown]

/-- Witness for C10: inserting at index 5 of the three-page sample document
fails out-of-range, with the pages unchanged and the foreign hold placed. -/
theorem C10_insert_oob_witness :
    PageList.count sampleDoc < 5 ∧
    ∃ s1 : QPDF,
      PageList.insertPage sampleDoc 5 foreignPage =
        .error (.indexError "Accessing nonexistent PDF page number", s1) ∧
      s1.pages = sampleDoc.pages ∧
      (foreignPage.owner = sampleDoc.graphId →
        s1.nextObjId = sampleDoc.nextObjId + 1 ∧ s1.holds = sampleDoc.holds) ∧
      (foreignPage.owner ≠ sampleDoc.graphId →
        s1.holds = foreignPage.owner :: sampleDoc.holds ∧
        s1.nextObjId = sampleDoc.nextObjId) :=
  ⟨by decide, C10_insert_oob sampleDoc foreignPage 5 (by decide)⟩

theorem extendSelfAux_step (oc fuel i : Nat) (s : QPDF)
    (hoc : oc = PageList.count s) (page : QPDFObjectHandle)
    (hget : PageList.getPage s (i : Int) = .ok page) (s1 : QPDF)
    (hins : PageList.insertPage s (PageList.count s) page = .ok s1) :
    PageList.extendSelfAux oc (fuel + 1) i s
      = PageList.extendSelfAux oc fuel (i + 1) s1 := by
  rw [PageList.extendSelfAux]
  rw [if_neg (by simp [hoc]), hget]
  show (match PageList.insertPage s (PageList.count s) page with
    | Except.error es => Except.error es
    | Except.ok s1 => PageList.extendSelfAux oc fuel (i + 1) s1) = _
  rw [hins]

theorem extendSelfAux_fail (oc fuel i : Nat) (s : QPDF)
    (hoc : oc ≠ PageList.count s) :
    PageList.extendSelfAux oc (fuel + 1) i s
      = .error (.valueError "source page list modified during iteration", s) := by
  rw [PageList.extendSelfAux]
  rw [if_pos hoc]

/-- C8: extend(PageList) captures the source count once and iterates by
index, re-checking the live count before each iteration.  Extending a page
list with itself (both views aliasing one QPDF) with at least two pages
appends exactly one page and then fails with the concurrent-modification
value error at the next check — the captured count bounds the loop, so it
neither loops forever nor duplicates pages unboundedly.  (With fewer than two
pages no check remains after the count changes, so no error is raised.) -/
theorem C8_extend_self_detects (s : QPDF) (h2 : 2 ≤ PageList.count s) :
    ∃ s1 : QPDF,
      PageList.extendSelf s =
        .error (.valueError "source page list modified during iteration", s1) ∧
      PageList.count s1 = PageList.count s + 1 := by
  have hlen : 0 < s.pages.length := by
    simp only [PageList.count] at h2; omega
  obtain ⟨m, hm⟩ : ∃ m, PageList.count s = m + 2 :=
    ⟨PageList.count s - 2, by omega⟩
  have hget : PageList.getPage s ((0 : Nat) : Int) = .ok s.pages[0] :=
    getPage_nat s 0 hlen
  have hins := insertPage_at_count s s.pages[0]
  have hc1 : PageList.count
      { PageList.bookkept s s.pages[0] with
        pages := s.pages ++ [PageList.resolvedPage s s.pages[0]] }
      = PageList.count s + 1 := by
    simp [PageList.count]
  refine ⟨{ PageList.bookkept s s.pages[0] with
            pages := s.pages ++ [PageList.resolvedPage s s.pages[0]] }, ?_, by omega⟩
  unfold PageList.extendSelf
  rw [hm]
  rw [show m + 2 = (m + 1) + 1 from rfl]
  rw [extendSelfAux_step ((m + 1) + 1) (m + 1) 0 s (by omega) s.pages[0] hget _ hins]
  rw [extendSelfAux_fail ((m + 1) + 1) m 1 _ (by rw [hc1]; omega)]

/-- Witness for C8: extending the two-page sample document with itself fails
with the concurrent-modification error after one append. -/
theorem C8_extend_self_detects_witness :
    2 ≤ PageList.count sampleDoc2 ∧
    ∃ s1 : QPDF,
      PageList.extendSelf sampleDoc2 =
        .error (.valueError "source page list modified during iteration", s1) ∧
      PageList.count s1 = PageList.count sampleDoc2 + 1 :=
  ⟨by decide, C8_extend_self_detects sampleDoc2 (by decide)⟩

/-- C4: on a page collection without duplicate identities, insertPage at any
index up to the count succeeds and places the resolved page (fresh copy or
original) at exactly that position — appending when the index equals the
count, otherwise immediately before the current occupant, shifting every
later page by one — and the count grows by exactly 1; deletePage at a valid
index succeeds, removes exactly that position, and the count shrinks by
exactly 1. -/
theorem C4_insert_delete_placement (s : QPDF) (page : QPDFObjectHandle) (idx : Nat)
    (hND : (s.pages.map pageKey).Nodup) :
    (idx ≤ PageList.count s →
      ∃ s1 : QPDF, PageList.insertPage s idx page = .ok s1 ∧
        s1.pages = s.pages.take idx ++ PageList.resolvedPage s page :: s.pages.drop idx ∧
        PageList.count s1 = PageList.count s + 1 ∧
        (idx = PageList.count s →
          s1.pages = s.pages ++ [PageList.resolvedPage s page])) ∧
    (idx < PageList.count s →
      ∃ s2 : QPDF, PageList.deletePage s idx = .ok s2 ∧
        s2.pages = s.pages.take idx ++ s.pages.drop (idx + 1) ∧
        PageList.count s2 = PageList.count s - 1) := by
  simp only [PageList.count]
  constructor
  · intro hidx
    refine ⟨_, insertPage_ok s idx page hND hidx, rfl, ?_, ?_⟩
    · simp only [PageList.count]
      exact length_insert_pages s.pages idx _ hidx
    · intro heq
      subst heq
      simp [List.take_length, List.drop_length]
  · intro hidx
    refine ⟨_, deletePage_ok s idx hND hidx, rfl, ?_⟩
    simp only [PageList.count, List.length_append, List.length_take, List.length_drop]
    omega

/-- Witness for C4 at the three-page sample document, inserting a foreign
page at index 1 and deleting index 1. -/
theorem C4_insert_delete_placement_witness :
    (sampleDoc.pages.map pageKey).Nodup ∧
    (1 ≤ PageList.count sampleDoc) ∧
    (∃ s1 : QPDF, PageList.insertPage sampleDoc 1 foreignPage = .ok s1 ∧
      s1.pages = sampleDoc.pages.take 1 ++
        PageList.resolvedPage sampleDoc foreignPage :: sampleDoc.pages.drop 1 ∧
      PageList.count s1 = PageList.count sampleDoc + 1 ∧
      (1 = PageList.count sampleDoc →
        s1.pages = sampleDoc.pages ++ [PageList.resolvedPage sampleDoc foreignPage])) ∧
    (∃ s2 : QPDF, PageList.deletePage sampleDoc 1 = .ok s2 ∧
      s2.pages = sampleDoc.pages.take 1 ++ sampleDoc.pages.drop 2 ∧
      PageList.count s2 = PageList.count sampleDoc - 1) :=
  ⟨by decide, by decide,
    (C4_insert_delete_placement sampleDoc foreignPage 1 (by decide)).1 (by decide),
    (C4_insert_delete_placement sampleDoc foreignPage 1 (by decide)).2 (by decide)⟩

/-- C3: inserting a page whose owner is the bound QPDF first mints a fresh
indirect copy — a handle with a brand-new object id, distinct from the
original's — and inserts that copy instead of the original; doing such an
insert twice with the same handle leaves the page collection free of
duplicate object identities.  (The hypothesis that the handle's id is below
the QPDF's fresh-id counter holds for every handle the QPDF has minted.) -/
theorem C3_copy_on_reinsert (s : QPDF) (page : QPDFObjectHandle) (i j : Nat)
    (hWF : WF s) (hown : page.owner = s.graphId)
    (hfresh : page.objId < s.nextObjId)
    (hi : i ≤ PageList.count s) (hj : j ≤ PageList.count s + 1) :
    ∃ s1 s2 : QPDF,
      PageList.insertPage s i page = .ok s1 ∧
      PageList.insertPage s1 j page = .ok s2 ∧
      s1.pages = s.pages.take i ++ PageList.resolvedPage s page :: s.pages.drop i ∧
      (PageList.resolvedPage s page).objId ≠ page.objId ∧
      (s2.pages.map pageKey).Nodup := by
  simp only [PageList.count] at hi hj
  have h1 := insertPage_ok s i page hWF.1 hi
  have hWF1 := WF_insert_samegraph s i page hWF hown
  have hlen1 : (s.pages.take i ++ PageList.resolvedPage s page :: s.pages.drop i).length
      = s.pages.length + 1 := length_insert_pages s.pages i _ hi
  have hown1 : page.owner =
      (({ PageList.bookkept s page with
          pages := s.pages.take i ++ PageList.resolvedPage s page :: s.pages.drop i }) : QPDF).graphId := by
    rw [hown]
    exact (bookkept_graphId s page).symm
  have h2 := insertPage_ok
    { PageList.bookkept s page with
      pages := s.pages.take i ++ PageList.resolvedPage s page :: s.pages.drop i }
    j page hWF1.1 (by simpa [hlen1] using hj)
  have hWF2 := WF_insert_samegraph
    { PageList.bookkept s page with
      pages := s.pages.take i ++ PageList.resolvedPage s page :: s.pages.drop i }
    j page hWF1 hown1
  refine ⟨_, _, h1, h2, rfl, ?_, hWF2.1⟩
  simp only [PageList.resolvedPage, hown, if_true]
  simp only [ne_eq]
  intro hcontra
  omega

/-- Witness for C3: double-inserting page A into its own three-page sample
document at indices 0 and 0. -/
theorem C3_copy_on_reinsert_witness :
    WF sampleDoc ∧ pageA.owner = sampleDoc.graphId ∧
    pageA.objId < sampleDoc.nextObjId ∧
    ∃ s1 s2 : QPDF,
      PageList.insertPage sampleDoc 0 pageA = .ok s1 ∧
      PageList.insertPage s1 0 pageA = .ok s2 ∧
      s1.pages = sampleDoc.pages.take 0 ++
        PageList.resolvedPage sampleDoc pageA :: sampleDoc.pages.drop 0 ∧
      (PageList.resolvedPage sampleDoc pageA).objId ≠ pageA.objId ∧
      (s2.pages.map pageKey).Nodup :=
  ⟨by decide, by decide, by decide,
    C3_copy_on_reinsert sampleDoc pageA 0 0 (by decide) (by decide) (by decide)
      (by decide) (by decide)⟩

/-- C5: setPagesFromIterable validates every source item as a page before any
mutation, so a type mismatch anywhere in the source fails the whole call with
a type error and the state untouched; and for an extended slice (step not 1)
a source length different from the resolved slice length fails with the
length-mismatch value error, again with the state untouched. -/
theorem C5_setSlice_validation (s : QPDF) (sl : PySlice) (others : List PyObject)
    (st sp stp : Int) (L : Nat)
    (hc : sliceCompute sl (PageList.count s) = .ok (st, sp, stp, L)) :
    (∀ e, PageList.validatePages others = .error e →
      PageList.setPagesFromIterable s sl others = .error (e, s) ∧
        ∃ msg, e = .typeError msg) ∧
    (stp ≠ 1 → others.length ≠ L →
      PageList.validatePages others = .ok others →
      PageList.setPagesFromIterable s sl others =
        .error (.valueError ("attempt to assign sequence of length " ++
          toString others.length ++ " to extended slice of size " ++
          toString L), s)) := by
  constructor
  · intro e he
    refine ⟨?_, validatePages_error_typeError others e he⟩
    simp only [PageList.setPagesFromIterable, hc, he]
  · intro hstp hlen hv
    simp only [PageList.setPagesFromIterable, hc, hv]
    rw [if_pos hstp, if_pos hlen]

/-- Witness for C5 at the three-page sample document with the extended slice
[0:3:2]: a non-page source item fails with a type error and the state
untouched; two pages against a slice of length 2 but one source page fails
with the length-mismatch message and the state untouched. -/
theorem C5_setSlice_validation_witness :
    sliceCompute ⟨some 0, some 3, some 2⟩ (PageList.count sampleDoc) =
      .ok (0, 3, 2, 2) ∧
    PageList.setPagesFromIterable sampleDoc ⟨some 0, some 3, some 2⟩
        [PyObject.nonPdf, PyObject.pdfObj foreignPage] =
      .error (.typeError "only pikepdf pages can be assigned to a page list",
        sampleDoc) ∧
    PageList.setPagesFromIterable sampleDoc ⟨some 0, some 3, some 2⟩
        [PyObject.pdfObj foreignPage] =
      .error (.valueError
        "attempt to assign sequence of length 1 to extended slice of size 2",
        sampleDoc) := by
  refine ⟨by decide, ?_, ?_⟩
  · exact ((C5_setSlice_validation sampleDoc ⟨some 0, some 3, some 2⟩
      [PyObject.nonPdf, PyObject.pdfObj foreignPage] 0 3 2 2 (by decide)).1
      (.typeError "only pikepdf pages can be assigned to a page list")
      (by decide)).1
  · have h := (C5_setSlice_validation sampleDoc ⟨some 0, some 3, some 2⟩
      [PyObject.pdfObj foreignPage] 0 3 2 2 (by decide)).2
      (by decide) (by decide) (by decide)
    simpa using h

/-- C1 (code bug): setPage at the append position (index equal to the page
count at call time) does not leave the document with the page appended and no
error, as the spec describes.  The guard reads the count after the insert, so
it always holds and deletePage(index + 1) runs even for an append: on a
one-page document, setPage(1, page) appends the page and then throws an
out-of-range index error, leaving both the mutation and the error. -/
theorem C1_setPage_append_bug :
    PageList.setPage sampleDoc1 1 (PyObject.pdfObj foreignPage) =
      .error (.indexError "Accessing nonexistent PDF page number",
        ⟨7, [pageA, foreignPage], 10, [9]⟩) ∧
    PageList.count sampleDoc1 = 1 := by decide

/-- C6: a contiguous (step 1) slice assignment with resolved start st and
resolved length L and any number k of source pages (k need not equal L)
inserts all k sources first at st, st+1, ..., and only then deletes the L
original occupants (shifted to start at st + k); the final count is the
original count minus L plus k, and the slice is replaced in order by the
source pages (as fresh same-graph copies, which preserve the page's object
value). -/
theorem C6_contiguous_slice_assignment (s : QPDF) (sl : PySlice)
    (srcs : List QPDFObjectHandle) (st sp : Int) (L : Nat) (hWF : WF s)
    (hc : sliceCompute sl (PageList.count s) = .ok (st, sp, 1, L))
    (hsrc : ∀ x ∈ srcs, x.owner = s.graphId ∧ x.isPage = true) :
    ∃ s2 : QPDF,
      PageList.setPagesFromIterable s sl (srcs.map PyObject.pdfObj) = .ok s2 ∧
      PageList.count s2 = PageList.count s - L + srcs.length ∧
      s2.pages.map QPDFObjectHandle.content =
        (s.pages.take st.toNat).map QPDFObjectHandle.content ++
        srcs.map QPDFObjectHandle.content ++
        (s.pages.drop (st.toNat + L)).map QPDFObjectHandle.content := by
  obtain ⟨copies, s2, hrun, hg, hpages, hcont, hlen, hcop, hWF2, hcount⟩ :=
    setSlice_step1_spec s sl srcs st sp L hWF hc hsrc
  refine ⟨s2, hrun, hcount, ?_⟩
  rw [hpages]
  simp only [List.map_append]
  rw [hcont]

/-- Witness for C6: assigning one same-graph page over the slice [0:2] of the
three-page sample document. -/
theorem C6_contiguous_slice_assignment_witness :
    WF sampleDoc ∧
    sliceCompute ⟨some 0, some 2, some 1⟩ (PageList.count sampleDoc) =
      .ok (0, 2, 1, 2) ∧
    ∃ s2 : QPDF,
      PageList.setPagesFromIterable sampleDoc ⟨some 0, some 2, some 1⟩
        ([pageA].map PyObject.pdfObj) = .ok s2 ∧
      PageList.count s2 = PageList.count sampleDoc - 2 + [pageA].length ∧
      s2.pages.map QPDFObjectHandle.content =
        (sampleDoc.pages.take (0 : Int).toNat).map QPDFObjectHandle.content ++
        [pageA].map QPDFObjectHandle.content ++
        (sampleDoc.pages.drop ((0 : Int).toNat + 2)).map QPDFObjectHandle.content :=
  ⟨by decide, by decide,
    C6_contiguous_slice_assignment sampleDoc ⟨some 0, some 2, some 1⟩
      [pageA] 0 2 2 (by decide) (by decide) (by decide)⟩

/-- C7: reverse() reads the whole sequence backwards and assigns it as a
step-1 slice over the entire original range, so the pages end up in reversed
order (as the fresh indirect copies same-graph reinsertion requires, which
preserve each page's object value), the count is unchanged, and reversing
twice restores the original order of page values. -/
theorem C7_reverse_involution (s : QPDF) (hWF : WF s)
    (hown : ∀ p ∈ s.pages, p.owner = s.graphId ∧ p.isPage = true) :
    ∃ s2 : QPDF, PageList.reverse s = .ok s2 ∧
      s2.pages.map QPDFObjectHandle.content =
        (s.pages.map QPDFObjectHandle.content).reverse ∧
      PageList.count s2 = PageList.count s ∧
      ∃ s3 : QPDF, PageList.reverse s2 = .ok s3 ∧
        s3.pages.map QPDFObjectHandle.content =
          s.pages.map QPDFObjectHandle.content := by
  obtain ⟨s2, hrun2, hg2, hcont2, hcount2, hWF2, hown2⟩ := reverse_spec s hWF hown
  obtain ⟨s3, hrun3, hg3, hcont3, hcount3, hWF3, hown3⟩ := reverse_spec s2 hWF2 hown2
  exact ⟨s2, hrun2, hcont2, hcount2, s3, hrun3, by
    rw [hcont3, hcont2, List.reverse_reverse]⟩

/-- Witness for C7: reversing the three-page sample document [A, B, C]. -/
theorem C7_reverse_involution_witness :
    WF sampleDoc ∧
    (∀ p ∈ sampleDoc.pages, p.owner = sampleDoc.graphId ∧ p.isPage = true) ∧
    ∃ s2 : QPDF, PageList.reverse sampleDoc = .ok s2 ∧
      s2.pages.map QPDFObjectHandle.content =
        (sampleDoc.pages.map QPDFObjectHandle.content).reverse ∧
      PageList.count s2 = PageList.count sampleDoc ∧
      ∃ s3 : QPDF, PageList.reverse s2 = .ok s3 ∧
        s3.pages.map QPDFObjectHandle.content =
          sampleDoc.pages.map QPDFObjectHandle.content :=
  ⟨by decide, by decide,
    C7_reverse_involution sampleDoc (by decide) (by decide)⟩
